import Mathlib

/-!
Verification of the sprinkler-timer repository (Go).

The definitions below are a shallow embedding of the two source files
`i2clib/relay.go` and `cmd/sprinkler/sprinkler.go`.  Go machine integers
(`int`, `int64`, `uint64`, `byte`) are modelled as `Int` / `Nat`, with
explicit range checks exactly where the source performs them; fallible Go
functions returning `(T, error)` are modelled as `Except`; the I2C device
behind the open file handle is modelled as an oracle (`Device`) giving the
outcome of each successive read/write system call, and each relay operation
also returns the list of hardware operations it issued (its trace).
-/

/-! ### Bit mapping (i2clib/relay.go) -/

/-- `relay2Addr`: map relay number to i2c address (relay.go line 18). -/
def relay2Addr : List Nat := [0, 2, 1, 3, 6, 4, 5, 7]

/-- `addr2Relay`: inverse mapping table, generated exactly as the `init`
function does (`addr2Relay[v] = i` for each `i, v` in `relay2Addr`). -/
def addr2Relay : List Nat :=
  (List.range 8).foldl (fun acc i => acc.set (relay2Addr.getD i 0) i)
    (List.replicate 8 0)

/-- `relay2ic`: convert relay bit mask to i2c bit mask (relay.go lines 30-38).
The Go input is an `int` (modelled `Int`); the result is a `byte` (here `Nat`,
always < 256).  `in & (1 << i)` is written `Int.land i2cIn (2 ^ i)`. -/
def relay2ic (rIn : Int) : Nat :=
  (List.range 8).foldl
    (fun v i =>
      if Int.land rIn ((2 : Int) ^ i) ≠ 0 then v ||| (2 ^ relay2Addr.getD i 0)
      else v)
    0

/-- `ic2relay`: i2c bit mask to relay bit mask (relay.go lines 41-49).
The Go input is a `byte` (`Nat`), the result an `int` (`Int`). -/
def ic2relay (icIn : Nat) : Int :=
  (List.range 8).foldl
    (fun v i =>
      if icIn &&& (2 ^ i) ≠ 0 then Int.lor v ((2 : Int) ^ addr2Relay.getD i 0)
      else v)
    0

/-! ### Relay channel transport (i2clib/relay.go) -/

/-- `writeAddress = 0x01`: first byte of every `Set` transaction. -/
def writeAddress : Nat := 1

/-- Outcome of one read/write system call on the i2c file handle:
either it succeeds fully, fails with an error (`err != nil`), or
transfers `n` bytes with no error. -/
inductive DevRes where
  | ok : DevRes
  | fail : String → DevRes
  | short : Nat → DevRes
deriving DecidableEq, Repr

/-- Oracle model of the open i2c device: `resp k` is the outcome of the
k-th read/write system call issued on the handle, and `readByte k` is the
byte found in `buf[1]` after a successful 2-byte read at call `k`. -/
structure Device where
  resp : Nat → DevRes
  readByte : Nat → Nat

/-- One hardware operation issued on the i2c handle: a write of the given
bytes, or a read of `n` bytes. -/
inductive HwOp where
  | write : List Nat → HwOp
  | read : Nat → HwOp
deriving DecidableEq, Repr

/-- Whether a hardware operation sends bytes to the device. -/
def HwOp.isWrite : HwOp → Bool
  | .write _ => true
  | .read _ => false

/-- Errors produced by `Relay.Set` / `Relay.Get`, one constructor per
`fmt.Errorf` site in relay.go (lines 84, 87, 96, 99). -/
inductive RelayErr where
  | setErr : String → RelayErr
  | setShort : Nat → RelayErr
  | getErr : String → RelayErr
  | getShort : Nat → RelayErr
deriving DecidableEq, Repr

/-- `Relay.Set` (relay.go lines 81-90): writes the two bytes
`[writeAddress, relay2ic state]`; an I/O error or a partial write is an
error.  The trace records the issued write call. -/
def relaySet (d : Device) (k : Nat) (state : Int) :
    Except RelayErr Unit × List HwOp :=
  let buf := [writeAddress, relay2ic state]
  let t := [HwOp.write buf]
  match d.resp k with
  | .fail m => (.error (.setErr m), t)
  | .short n => if n ≠ buf.length then (.error (.setShort n), t) else (.ok (), t)
  | .ok => (.ok (), t)

/-- `Relay.Get` (relay.go lines 93-103): initializes `buf = [readAddress, 0]`
and calls `file.Read(buf)` — a single 2-byte read, no write is issued.  A
read error or a read of fewer than 2 bytes is an error; otherwise the result
is `ic2relay buf[1]` (the byte delivered by the device, reduced mod 256). -/
def relayGet (d : Device) (k : Nat) : Except RelayErr Int × List HwOp :=
  let t := [HwOp.read 2]
  match d.resp k with
  | .fail m => (.error (.getErr m), t)
  | .short n =>
      if n ≠ 2 then (.error (.getShort n), t)
      else (.ok (ic2relay (d.readByte k % 256)), t)
  | .ok => (.ok (ic2relay (d.readByte k % 256)), t)

/-! ### Parsing (cmd/sprinkler/sprinkler.go and its library calls)

Strings are modelled as `List Char`; all inputs the program meets are
ASCII, where Go's byte-wise scanning and this character-wise model agree. -/

/-- `strings.Split(s, sep)` for a one-character separator: splits around
every occurrence of `sep`; `n` separators yield `n+1` fields. -/
def goSplit (sep : Char) : List Char → List (List Char)
  | [] => [[]]
  | c :: rest =>
    if c = sep then [] :: goSplit sep rest
    else
      match goSplit sep rest with
      | f :: fs => (c :: f) :: fs
      | [] => [[c]]

/-- `time/format.go leadingInt`: consume `[0-9]*` accumulating into `x`
(a `uint64` in Go), erroring on overflow past `1<<63` exactly as the
source checks (`x > 1<<63/10` before the multiply, `x > 1<<63` after). -/
def leadingInt : Nat → List Char → Except Unit (Nat × List Char)
  | x, [] => .ok (x, [])
  | x, c :: rest =>
    if c < '0' ∨ c > '9' then .ok (x, c :: rest)
    else if x > 2 ^ 63 / 10 then .error ()
    else
      let x1 := x * 10 + (c.toNat - '0'.toNat)
      if x1 > 2 ^ 63 then .error ()
      else leadingInt x1 rest

/-- `time/format.go leadingFraction`: consume `[0-9]*` after the decimal
point, returning the digits value `x` and the scale (10^digits); once the
value would overflow, further digits are consumed but ignored.  The source
keeps `scale` in a `float64`; powers of ten are kept exact here. -/
def leadingFraction : Nat → Nat → Bool → List Char →
    Nat × Nat × List Char
  | x, scl, _, [] => (x, scl, [])
  | x, scl, overflow, c :: rest =>
    if c < '0' ∨ c > '9' then (x, scl, c :: rest)
    else if overflow then leadingFraction x scl true rest
    else if x > (2 ^ 63 - 1) / 10 then leadingFraction x scl true rest
    else
      let y := x * 10 + (c.toNat - '0'.toNat)
      if y > 2 ^ 63 then leadingFraction x scl true rest
      else leadingFraction y (scl * 10) false rest

/-- `time/format.go unitMap`: nanoseconds per duration unit. -/
def unitMap : List (List Char × Nat) :=
  [(['n', 's'], 1), (['u', 's'], 1000), (['µ', 's'], 1000), (['μ', 's'], 1000),
   (['m', 's'], 1000000), (['s'], 1000000000), (['m'], 60 * 1000000000),
   (['h'], 3600 * 1000000000)]

/-- Length of the unit token: leading characters that are neither `.` nor
digits (the inner `for` loop of `ParseDuration`). -/
def unitLen : List Char → Nat
  | [] => 0
  | c :: rest =>
    if c = '.' ∨ ('0' ≤ c ∧ c ≤ '9') then 0 else unitLen rest + 1

/-- Look a unit token up in `unitMap`. -/
def lookupUnit (u : List Char) : Option Nat :=
  (unitMap.find? (fun p => p.1 = u)).map (·.2)

/-- The main loop of `time.ParseDuration`: repeatedly consume one
`[0-9]*(\.[0-9]*)?unit` component and accumulate nanoseconds into `d`
(a `uint64` in Go, hence the explicit `2^63` overflow checks).  Each
successful pass consumes at least one character, so the fuel — the length
of the remaining input plus one — is never exhausted; the source computes
the fractional contribution in `float64`, modelled exactly here as
`f * unit / scale` with truncation. -/
def parseDurationLoop : Nat → Nat → List Char → Except String Nat
  | _, d, [] => .ok d
  | 0, _, _ => .error "time: invalid duration"
  | fuel + 1, d, c :: s0 =>
    if ¬(c = '.' ∨ ('0' ≤ c ∧ c ≤ '9')) then .error "time: invalid duration"
    else
      match leadingInt 0 (c :: s0) with
      | .error () => .error "time: invalid duration"
      | .ok (v, s1) =>
        let pre := s1.length != (c :: s0).length
        let fp :=
          match s1 with
          | '.' :: s1a =>
            let r := leadingFraction 0 1 false s1a
            (r.1, r.2.1, r.2.2, r.2.2.length != s1a.length)
          | _ => (0, 1, s1, false)
        let f := fp.1
        let scl := fp.2.1
        let s2 := fp.2.2.1
        let post := fp.2.2.2
        if !pre && !post then .error "time: invalid duration"
        else
          let i := unitLen s2
          if i = 0 then .error "time: missing unit in duration"
          else
            match lookupUnit (s2.take i) with
            | none => .error "time: unknown unit"
            | some unit =>
              if v > 2 ^ 63 / unit then .error "time: invalid duration"
              else
                let v1 := v * unit
                let v2 := if f > 0 then v1 + f * unit / scl else v1
                if f > 0 ∧ v2 > 2 ^ 63 then .error "time: invalid duration"
                else
                  let d1 := d + v2
                  if d1 > 2 ^ 63 then .error "time: invalid duration"
                  else parseDurationLoop fuel d1 (s2.drop i)

/-- `time.ParseDuration`: optional sign, then the component loop; "0" is
special-cased; an empty body is an error; the final value must fit in an
`int64` (negated values may reach `-2^63`). -/
def parseDuration (str : List Char) : Except String Int :=
  let sp :=
    match str with
    | '-' :: rest => (true, rest)
    | '+' :: rest => (false, rest)
    | s => (false, s)
  let neg := sp.1
  let s := sp.2
  if s = ['0'] then .ok 0
  else if s = [] then .error "time: invalid duration"
  else
    match parseDurationLoop (s.length + 1) 0 s with
    | .error e => .error e
    | .ok d =>
      if neg then .ok (-(d : Int))
      else if d > 2 ^ 63 - 1 then .error "time: invalid duration"
      else .ok (d : Int)

/-- Digit accumulation for `strconv.Atoi`: all characters must be decimal
digits (any other character is a syntax error). -/
def atoiDigits : Nat → List Char → Except Unit Nat
  | n, [] => .ok n
  | n, c :: rest =>
    if '0' ≤ c ∧ c ≤ '9' then atoiDigits (n * 10 + (c.toNat - '0'.toNat)) rest
    else .error ()

/-- `strconv.Atoi` on a 64-bit platform: optional sign, then one or more
decimal digits; empty input, a stray character, or a value outside the
`int64` range is an error. -/
def atoi (str : List Char) : Except String Int :=
  match str with
  | [] => .error "invalid syntax"
  | _ =>
    let sp :=
      match str with
      | '-' :: rest => (true, rest)
      | '+' :: rest => (false, rest)
      | s => (false, s)
    let neg := sp.1
    let s := sp.2
    if s = [] then .error "invalid syntax"
    else
      match atoiDigits 0 s with
      | .error () => .error "invalid syntax"
      | .ok v =>
        if neg then
          if v > 2 ^ 63 then .error "value out of range" else .ok (-(v : Int))
        else if v ≥ 2 ^ 63 then .error "value out of range"
        else .ok (v : Int)

/-! ### Events and programs (cmd/sprinkler/sprinkler.go) -/

/-- `offTime = time.Second * 3` (sprinkler.go line 23), in nanoseconds. -/
def offTime : Int := 3 * 1000000000

/-- An event: sprinkler zone number (`0` for none) and watering duration
(`time.Duration`, i.e. `int64` nanoseconds) — sprinkler.go lines 26-29. -/
structure Event where
  id : Int
  dur : Int
deriving DecidableEq, Repr

/-- Errors of `event.Set`, one constructor per `fmt.Errorf` site
(sprinkler.go lines 40, 44, 47, 51), each carrying what the format string
interpolates (the offending field, and any wrapped error). -/
inductive EventErr where
  | invalidEvent : List Char → EventErr
  | invalidDuration : List Char → String → EventErr
  | durTooShort : Int → EventErr
  | invalidId : List Char → Option String → EventErr
deriving DecidableEq, Repr

/-- `event.Set` (sprinkler.go lines 37-56): split on ":" into exactly two
fields; parse the duration; reject durations below `offTime`; parse the id,
rejecting non-integers and negatives; on success the event holds the parsed
id and duration. -/
def eventSet (s : List Char) : Except EventErr Event :=
  let parts := goSplit ':' s
  if parts.length ≠ 2 then .error (.invalidEvent s)
  else
    let p0 := parts.getD 0 []
    let p1 := parts.getD 1 []
    match parseDuration p1 with
    | .error w => .error (.invalidDuration p1 w)
    | .ok dur =>
      if dur < offTime then .error (.durTooShort dur)
      else
        match atoi p0 with
        | .error w => .error (.invalidId p0 (some w))
        | .ok id =>
          if id < 0 then .error (.invalidId p0 none)
          else .ok ⟨id, dur⟩

/-- The loop of `program.Set`: each successfully parsed event is appended
to the program before the next token is examined; the first failure
returns immediately, leaving the already-appended events in place. -/
def progSetTokens : List Event → List (List Char) →
    List Event × Option EventErr
  | p, [] => (p, none)
  | p, v :: rest =>
    match eventSet v with
    | .error e => (p, some e)
    | .ok ev => progSetTokens (p ++ [ev]) rest

/-- `program.Set` (sprinkler.go lines 87-96): split on "," and parse each
token in order. -/
def progSet (p : List Event) (s : List Char) : List Event × Option EventErr :=
  progSetTokens p (goSplit ',' s)

/-- `scale` (sprinkler.go lines 118-124): scale a duration by a percentage
with Go's truncating `int64` division, floored at `offTime`. -/
def scale (dur : Int) (percent : Int) : Int :=
  let scaled := Int.tdiv (dur * percent) 100
  if scaled < offTime then offTime else scaled

/-- `program.duration` (sprinkler.go lines 99-105): sum of the scaled event
durations plus `len(p) * offTime`. -/
def programDuration (p : List Event) (pct : Int) : Int :=
  (p.foldl (fun total e => total + scale e.dur pct) 0) +
    (p.length : Int) * offTime

/-! ### Program execution (cmd/sprinkler/sprinkler.go) -/

/-- The mask computed at the top of `event.run` (sprinkler.go lines 60-63):
`0` for the sentinel zone `0`, else `1 << (id - 1)`. -/
def eventMask (e : Event) : Int :=
  if e.id > 0 then (2 : Int) ^ (e.id - 1).toNat else 0

/-- `event.run` (sprinkler.go lines 59-74): `r.Set(mask)`, propagating a
failure immediately; sleep for the scaled duration; then `r.Set(0)` with
its error value discarded, and sleep `offTime`.  Returns the result, the
trace of issued hardware operations, and the next device call index. -/
def eventRun (d : Device) (k : Nat) (e : Event) :
    Except RelayErr Unit × List HwOp × Nat :=
  let r1 := relaySet d k (eventMask e)
  match r1.1 with
  | .error err => (.error err, r1.2, k + 1)
  | .ok _ =>
    let r2 := relaySet d (k + 1) 0
    (.ok (), r1.2 ++ r2.2, k + 2)

/-- `program.run` (sprinkler.go lines 108-115): run the events in order,
returning the first error. -/
def programRun (d : Device) (k : Nat) :
    List Event → Except RelayErr Unit × List HwOp × Nat
  | [] => (.ok (), [], k)
  | e :: es =>
    match eventRun d k e with
    | (.error err, t, k1) => (.error err, t, k1)
    | (.ok _, t, k1) =>
      let r := programRun d k1 es
      (r.1, t ++ r.2.1, r.2.2)

/-- Outcome of `main` (sprinkler.go lines 168-196) after flag parsing,
from the point where the relay channel is open. -/
inductive MainResult where
  | noProgram : MainResult
  | getFailed : RelayErr → MainResult
  | alreadyActive : Int → MainResult
  | ranProgram : Except RelayErr Unit → MainResult
deriving Repr

/-- `main` (sprinkler.go lines 168-196), from the open relay channel on:
reject an empty program; preflight `r.Get()`; refuse to start when the
returned mask is nonzero; otherwise run the program. -/
def mainRun (d : Device) (prog : List Event) : MainResult × List HwOp :=
  if prog.length < 1 then (.noProgram, [])
  else
    match relayGet d 0 with
    | (.error e, t) => (.getFailed e, t)
    | (.ok i, t) =>
      if i ≠ 0 then (.alreadyActive i, t)
      else
        let r := programRun d 1 prog
        (.ranProgram r.1, t ++ r.2.1)

/-- A delivered process signal, as discriminated by `cleanup`
(sprinkler.go lines 128-148): `SIGURG` (ignored), `SIGUSR1` (status
query), or any other signal (the termination path). -/
inductive Sig where
  | sigurg : Sig
  | sigusr1 : Sig
  | term : String → Sig
deriving DecidableEq, Repr

/-- The body of the signal loop in `cleanup`: the hardware operations it
issues for one delivered signal.  `SIGURG` is skipped; `SIGUSR1` performs
`r.Get()` and reports; any other signal performs `r.Set(0)`, closes the
channel and exits the process. -/
def handleSignal (d : Device) (k : Nat) : Sig → List HwOp
  | .sigurg => []
  | .sigusr1 => (relayGet d k).2
  | .term _ => (relaySet d k 0).2

/-! ### Helper instances and lemmas -/

instance {ε α : Type} [DecidableEq ε] [DecidableEq α] : DecidableEq (Except ε α)
  | .ok a, .ok b =>
    if h : a = b then .isTrue (by rw [h])
    else .isFalse (fun hh => h (Except.ok.inj hh))
  | .ok _, .error _ => .isFalse (fun hh => Except.noConfusion hh)
  | .error _, .ok _ => .isFalse (fun hh => Except.noConfusion hh)
  | .error a, .error b =>
    if h : a = b then .isTrue (by rw [h])
    else .isFalse (fun hh => h (Except.error.inj hh))

/-- A device whose every call succeeds and whose reads deliver byte 5. -/
def devAllOk : Device := ⟨fun _ => .ok, fun _ => 5⟩

/-- A device on which only the second call (index 1) fails: during a
two-event run this is exactly the off-write `set(0)` of the first event. -/
def devFailOff : Device := ⟨fun k => if k = 1 then .fail "io" else .ok, fun _ => 0⟩

/-- A device whose every call fails. -/
def devAllFail : Device := ⟨fun _ => .fail "io", fun _ => 0⟩

theorem relaySet_trace (d : Device) (k : Nat) (s : Int) :
    (relaySet d k s).2 = [HwOp.write [writeAddress, relay2ic s]] := by
  unfold relaySet
  cases d.resp k with
  | ok => rfl
  | fail m => rfl
  | short n =>
    simp only
    split <;> rfl

theorem relayGet_trace (d : Device) (k : Nat) :
    (relayGet d k).2 = [HwOp.read 2] := by
  unfold relayGet
  cases d.resp k with
  | ok => rfl
  | fail m => rfl
  | short n =>
    simp only
    split <;> rfl

theorem relay2ic_zero : relay2ic 0 = 0 := rfl

/-- If the energizing set succeeds, `event.run` returns ok and its trace is
the on-write followed by the off-write, whatever the off-write's outcome. -/
theorem eventRun_ok (d : Device) (k : Nat) (e : Event)
    (h : (relaySet d k (eventMask e)).1 = .ok ()) :
    eventRun d k e =
      (.ok (), [HwOp.write [writeAddress, relay2ic (eventMask e)],
                HwOp.write [writeAddress, 0]], k + 2) := by
  simp only [eventRun]
  rw [h, relaySet_trace, relaySet_trace, relay2ic_zero]
  rfl

/-- If the energizing set fails, `event.run` stops at the on-write. -/
theorem eventRun_err (d : Device) (k : Nat) (e : Event) (err : RelayErr)
    (h : (relaySet d k (eventMask e)).1 = .error err) :
    eventRun d k e =
      (.error err, [HwOp.write [writeAddress, relay2ic (eventMask e)]], k + 1) := by
  simp only [eventRun]
  rw [h, relaySet_trace]

theorem foldl_scale_sum (pct : Int) :
    ∀ (p : List Event) (init : Int),
      p.foldl (fun total e => total + scale e.dur pct) init
        = init + (p.map (fun e => scale e.dur pct)).sum := by
  intro p
  induction p with
  | nil => intro init; simp
  | cons e es ih => intro init; simp [ih, add_assoc]

/-! ### Claims -/

set_option maxRecDepth 10000 in
/-- C1: the bit-mapping functions `relay2ic` (toWire) and `ic2relay`
(toLogical) are pure total functions on 8-bit masks and mutual inverses:
for every mask `m` in `[0,255]`, `ic2relay (relay2ic m) = m` and
`relay2ic (ic2relay m) = m`. -/
theorem c1_bitmap_bijection :
    ∀ m : Fin 256,
      ic2relay (relay2ic ((m : Nat) : Int)) = ((m : Nat) : Int) ∧
      relay2ic (ic2relay (m : Nat)) = (m : Nat) := by decide

/-- C5: for every program and every percent scale, `program.duration`
equals the sum over events of `scale(event.dur, pct)` plus `n * offTime`;
in particular for program "1:10s,2:10s" at scale 100 with the 3s settling
delay the total is 26 seconds. -/
theorem c5_total_duration :
    (∀ (p : List Event) (pct : Int),
        programDuration p pct
          = (p.map (fun e => scale e.dur pct)).sum + (p.length : Int) * offTime) ∧
      programDuration (progSet [] "1:10s,2:10s".data).1 100 = 26 * 1000000000 := by
  constructor
  · intro p pct
    unfold programDuration
    rw [foldl_scale_sum, zero_add]
  · decide

theorem programRun_cons_err (d : Device) (k : Nat) (e : Event)
    (es : List Event) (err : RelayErr)
    (h : (relaySet d k (eventMask e)).1 = .error err) :
    programRun d k (e :: es) =
      (.error err, [HwOp.write [writeAddress, relay2ic (eventMask e)]], k + 1) := by
  simp only [programRun]
  rw [eventRun_err d k e err h]

theorem programRun_cons_ok (d : Device) (k : Nat) (e : Event) (es : List Event)
    (h : (relaySet d k (eventMask e)).1 = .ok ()) :
    programRun d k (e :: es) =
      ((programRun d (k + 2) es).1,
        [HwOp.write [writeAddress, relay2ic (eventMask e)],
         HwOp.write [writeAddress, 0]] ++ (programRun d (k + 2) es).2.1,
        (programRun d (k + 2) es).2.2) := by
  simp only [programRun]
  rw [eventRun_ok d k e h]

/-- C2 counterexample: on `devFailOff` the off-write `set(0)` of the first
event (device call index 1) fails, yet `program.run` returns ok — the error
is not propagated — and the second event is still attempted (its writes
`[1, 4]` and `[1, 0]` appear in the trace).  This refutes the claim that
every failure of a channel set call, including the off-write, aborts the
remaining sequence and propagates to the caller. -/
theorem c2_counterexample :
    (relaySet devFailOff 1 0).1 = .error (.setErr "io") ∧
      programRun devFailOff 0 [⟨1, 3000000000⟩, ⟨2, 3000000000⟩] =
        (.ok (), [HwOp.write [1, 1], HwOp.write [1, 0],
                  HwOp.write [1, 4], HwOp.write [1, 0]], 4) := by decide

/-- C2 (amended): a failure of the on-write that energizes the zone aborts
the remaining event sequence and propagates the error immediately — no
later event is attempted; a failure of the subsequent off-write `set(0)` is
discarded: `event.run` still returns ok and execution continues. -/
theorem c2_fail_fast :
    (∀ (d : Device) (k : Nat) (e : Event) (es : List Event) (err : RelayErr),
        (relaySet d k (eventMask e)).1 = .error err →
        programRun d k (e :: es) =
          (.error err, [HwOp.write [writeAddress, relay2ic (eventMask e)]], k + 1)) ∧
    (∀ (d : Device) (k : Nat) (e : Event),
        (relaySet d k (eventMask e)).1 = .ok () →
        (eventRun d k e).1 = .ok ()) := by
  constructor
  · exact programRun_cons_err
  · intro d k e h
    rw [eventRun_ok d k e h]

theorem c2_fail_fast_witness :
    programRun devAllFail 0 [⟨1, 3000000000⟩, ⟨2, 3000000000⟩] =
        (.error (.setErr "io"),
          [HwOp.write [writeAddress, relay2ic (eventMask ⟨1, 3000000000⟩)]], 1) ∧
      (eventRun devFailOff 0 ⟨1, 3000000000⟩).1 = .ok () :=
  ⟨c2_fail_fast.1 devAllFail 0 ⟨1, 3000000000⟩ [⟨2, 3000000000⟩] (.setErr "io") (by decide),
   c2_fail_fast.2 devFailOff 0 ⟨1, 3000000000⟩ (by decide)⟩

/-- C7: every hardware write issued during `program.run` carries a mask
that is either 0 (the deliberate all-off writes) or has exactly one bit set
(`1 << (id-1)` for a zone id > 0; the mask is 0 when the event's id is 0),
so no mask with more than one bit set is ever passed to `Set`. -/
theorem c7_single_zone :
    ∀ (d : Device) (k : Nat) (p : List Event) (op : HwOp),
      op ∈ (programRun d k p).2.1 →
      ∃ m : Int, op = HwOp.write [writeAddress, relay2ic m] ∧
        (m = 0 ∨ ∃ j : Nat, m = 2 ^ j) := by
  intro d k p
  induction p generalizing k with
  | nil => intro op h; simp [programRun] at h
  | cons e es ih =>
    intro op h
    have hmask : eventMask e = 0 ∨ ∃ j : Nat, eventMask e = 2 ^ j := by
      unfold eventMask
      split
      · exact Or.inr ⟨(e.id - 1).toNat, rfl⟩
      · exact Or.inl rfl
    cases hset : (relaySet d k (eventMask e)).1 with
    | error err =>
      rw [programRun_cons_err d k e es err hset] at h
      simp only [List.mem_singleton] at h
      exact ⟨eventMask e, h, hmask⟩
    | ok u =>
      obtain ⟨⟩ := u
      rw [programRun_cons_ok d k e es hset] at h
      simp only [List.cons_append, List.nil_append, List.mem_cons] at h
      rcases h with h | h | h
      · exact ⟨eventMask e, h, hmask⟩
      · refine ⟨0, ?_, Or.inl rfl⟩
        rw [relay2ic_zero]
        exact h
      · exact ih (k + 2) op h

theorem c7_single_zone_witness :
    ∃ m : Int, HwOp.write [1, 4] = HwOp.write [writeAddress, relay2ic m] ∧
      (m = 0 ∨ ∃ j : Nat, m = 2 ^ j) :=
  c7_single_zone devAllOk 0 [⟨2, 3000000000⟩] (HwOp.write [1, 4]) (by decide)

/-- C4: after `program.run` completes successfully the last hardware write
issued is `set(0)` (wire bytes `[1, 0]`), and when the run is interrupted
via the signal-driven termination path the handler's last (and only)
hardware write is likewise `set(0)`. -/
theorem c4_off_invariant :
    (∀ (d : Device) (k : Nat) (p : List Event),
        p ≠ [] → (programRun d k p).1 = .ok () →
        (programRun d k p).2.1.getLast? = some (HwOp.write [writeAddress, 0])) ∧
    (∀ (d : Device) (k : Nat) (nm : String),
        (handleSignal d k (.term nm)).getLast? =
          some (HwOp.write [writeAddress, 0])) := by
  constructor
  · intro d k p
    induction p generalizing k with
    | nil => intro hne _; exact absurd rfl hne
    | cons e es ih =>
      intro _ hok
      cases hset : (relaySet d k (eventMask e)).1 with
      | error err =>
        rw [programRun_cons_err d k e es err hset] at hok
        exact absurd hok (by simp)
      | ok u =>
        obtain ⟨⟩ := u
        have hcons := programRun_cons_ok d k e es hset
        have hok2 : (programRun d (k + 2) es).1 = .ok () := by
          rw [hcons] at hok
          exact hok
        rw [hcons]
        show ([HwOp.write [writeAddress, relay2ic (eventMask e)],
               HwOp.write [writeAddress, 0]]
            ++ (programRun d (k + 2) es).2.1).getLast? = _
        cases es with
        | nil => simp [programRun]
        | cons e2 es2 =>
          have hlast := ih (k + 2) (List.cons_ne_nil _ _) hok2
          have hne2 : (programRun d (k + 2) (e2 :: es2)).2.1 ≠ [] := by
            intro hnil
            rw [hnil] at hlast
            exact Option.noConfusion hlast
          rw [List.getLast?_append_of_ne_nil _ hne2]
          exact hlast
  · intro d k nm
    show ((relaySet d k 0).2).getLast? = _
    rw [relaySet_trace, relay2ic_zero]
    rfl

theorem c4_off_invariant_witness :
    (programRun devAllOk 0 [⟨1, 3000000000⟩]).2.1.getLast? =
        some (HwOp.write [writeAddress, 0]) ∧
      (handleSignal devAllOk 0 (.term "SIGTERM")).getLast? =
        some (HwOp.write [writeAddress, 0]) :=
  ⟨c4_off_invariant.1 devAllOk 0 [⟨1, 3000000000⟩] (by decide) (by decide),
   c4_off_invariant.2 devAllOk 0 "SIGTERM"⟩

/-- C3 counterexample: `Relay.Get` issues no write to the device at all —
its whole trace is the single 2-byte read — refuting the claim that `Get`
first writes a two-byte prepare-read indicator `[0x00, 0x00]` before
reading.  (The read buffer is merely initialized to `[0x00, 0x00]`; it is
never written to the device.)  On `devAllOk` the read delivers byte 5 and
`Get` returns `ic2relay 5 = 3`. -/
theorem c3_counterexample :
    (relayGet devAllOk 0).2 = [HwOp.read 2] ∧
      (relayGet devAllOk 0).2.filter HwOp.isWrite = [] ∧
      (relayGet devAllOk 0).1 = .ok 3 := by decide

/-- C3 (amended): `Get` performs a single 2-byte read — issuing no write —
and returns `ic2relay` of the second byte read; a read error or a read of
fewer than 2 bytes yields an error (the same partial-I/O failure policy as
`Set`). -/
theorem c3_get_behavior :
    ∀ (d : Device) (k : Nat),
      (relayGet d k).2 = [HwOp.read 2] ∧
      (relayGet d k).2.filter HwOp.isWrite = [] ∧
      (∀ m, d.resp k = .fail m → (relayGet d k).1 = .error (.getErr m)) ∧
      (∀ n, d.resp k = .short n → n ≠ 2 →
        (relayGet d k).1 = .error (.getShort n)) ∧
      (d.resp k = .ok → (relayGet d k).1 = .ok (ic2relay (d.readByte k % 256))) ∧
      (∀ n, d.resp k = .short n → n = 2 →
        (relayGet d k).1 = .ok (ic2relay (d.readByte k % 256))) := by
  intro d k
  refine ⟨relayGet_trace d k, ?_, ?_, ?_, ?_, ?_⟩
  · rw [relayGet_trace]
    rfl
  · intro m h
    simp [relayGet, h]
  · intro n h hne
    simp [relayGet, h, hne]
  · intro h
    simp [relayGet, h]
  · intro n h h2
    simp [relayGet, h, h2]

theorem c3_get_behavior_witness :
    (relayGet devAllFail 0).1 = .error (.getErr "io") ∧
      (relayGet devAllOk 0).1 = .ok (ic2relay (devAllOk.readByte 0 % 256)) :=
  ⟨(c3_get_behavior devAllFail 0).2.2.1 "io" rfl,
   (c3_get_behavior devAllOk 0).2.2.2.2.1 rfl⟩

/-- C8: before running a program the supervisor preflights with `get()`;
when the returned mask is nonzero it refuses to start, reporting the
already-active condition, and issues zero writes to the relay channel —
the whole hardware trace of that execution is the single preflight read. -/
theorem c8_preflight :
    ∀ (d : Device) (prog : List Event) (i : Int),
      1 ≤ prog.length →
      (relayGet d 0).1 = .ok i → i ≠ 0 →
      mainRun d prog = (.alreadyActive i, [HwOp.read 2]) ∧
        (mainRun d prog).2.filter HwOp.isWrite = [] := by
  intro d prog i hlen hget hne
  have hpair : relayGet d 0 = (.ok i, [HwOp.read 2]) :=
    Prod.ext hget (relayGet_trace d 0)
  have hmain : mainRun d prog = (.alreadyActive i, [HwOp.read 2]) := by
    unfold mainRun
    rw [if_neg (by omega), hpair]
    simp [hne]
  exact ⟨hmain, by rw [hmain]; rfl⟩

theorem c8_preflight_witness :
    mainRun devAllOk [⟨1, 3000000000⟩] = (.alreadyActive 3, [HwOp.read 2]) ∧
      (mainRun devAllOk [⟨1, 3000000000⟩]).2.filter HwOp.isWrite = [] :=
  c8_preflight devAllOk [⟨1, 3000000000⟩] 3 (by decide) (by decide) (by decide)

/-- C6: `event.Set` splits its input on ":" into exactly two fields and
errors — naming the offending field — when the field count is not two,
when the duration fails to parse, when the duration is below the fixed
settling delay (in particular "1:1s" is rejected against the 3s floor),
or when the id is not a non-negative integer; on success the event holds
the parsed id and duration. -/
theorem c6_eventSet_cases :
    ((∀ s : List Char, (goSplit ':' s).length ≠ 2 →
        eventSet s = .error (.invalidEvent s)) ∧
      (∀ (s p0 p1 : List Char), goSplit ':' s = [p0, p1] →
        (∀ w, parseDuration p1 = .error w →
          eventSet s = .error (.invalidDuration p1 w)) ∧
        (∀ dur : Int, parseDuration p1 = .ok dur → dur < offTime →
          eventSet s = .error (.durTooShort dur)) ∧
        (∀ dur : Int, parseDuration p1 = .ok dur → offTime ≤ dur →
          (∀ w, atoi p0 = .error w →
            eventSet s = .error (.invalidId p0 (some w))) ∧
          (∀ id : Int, atoi p0 = .ok id → id < 0 →
            eventSet s = .error (.invalidId p0 none)) ∧
          (∀ id : Int, atoi p0 = .ok id → 0 ≤ id →
            eventSet s = .ok ⟨id, dur⟩)))) ∧
      eventSet "1:1s".data = .error (.durTooShort 1000000000) := by
  refine ⟨⟨?_, ?_⟩, by decide⟩
  · intro s h
    simp [eventSet, h]
  · intro s p0 p1 hsplit
    refine ⟨?_, ?_, ?_⟩
    · intro w hw
      simp [eventSet, hsplit, hw]
    · intro dur hdur hlt
      simp [eventSet, hsplit, hdur, hlt]
    · intro dur hdur hge
      have hnlt : ¬(dur < offTime) := not_lt.mpr hge
      refine ⟨?_, ?_, ?_⟩
      · intro w hw
        simp [eventSet, hsplit, hdur, hnlt, hw]
      · intro id hid hneg
        simp [eventSet, hsplit, hdur, hnlt, hid, hneg]
      · intro id hid hpos
        have hnneg : ¬(id < 0) := not_lt.mpr hpos
        simp [eventSet, hsplit, hdur, hnlt, hid, hnneg]

theorem c6_eventSet_cases_witness :
    eventSet "2:5s".data = .ok ⟨2, 5000000000⟩ :=
  ((c6_eventSet_cases.1.2 "2:5s".data "2".data "5s".data (by decide)).2.2
      5000000000 (by decide) (by decide)).2.2 2 (by decide) (by decide)

theorem progSetTokens_partial :
    ∀ (pre : List (List Char)) (evs : List Event),
      List.Forall₂ (fun v e => eventSet v = .ok e) pre evs →
      ∀ (p : List Event) (tok : List Char) (rest : List (List Char))
        (err : EventErr),
        eventSet tok = .error err →
        progSetTokens p (pre ++ tok :: rest) = (p ++ evs, some err) := by
  intro pre evs hpre
  induction hpre with
  | nil =>
    intro p tok rest err h
    simp [progSetTokens, h]
  | @cons v e pre2 evs2 hv _ ih =>
    intro p tok rest err h
    simp only [List.cons_append, progSetTokens, hv, List.append_eq]
    rw [ih (p ++ [e]) tok rest err h, List.append_assoc]
    rfl

/-- C9 (implicit): program parsing is not atomic on error — when
`program.Set` fails on a token, the events parsed from the preceding
tokens have already been appended to the receiving program and remain
there after the error returns. -/
theorem c9_progSet_partial :
    ∀ (p : List Event) (s : List Char) (pre : List (List Char))
      (tok : List Char) (rest : List (List Char)) (evs : List Event)
      (err : EventErr),
      goSplit ',' s = pre ++ tok :: rest →
      List.Forall₂ (fun v e => eventSet v = .ok e) pre evs →
      eventSet tok = .error err →
      progSet p s = (p ++ evs, some err) := by
  intro p s pre tok rest evs err hsplit hpre htok
  unfold progSet
  rw [hsplit]
  exact progSetTokens_partial pre evs hpre p tok rest err htok

theorem c9_progSet_partial_witness :
    progSet [] "1:10s,bad".data =
      ([⟨1, 10000000000⟩], some (.invalidEvent "bad".data)) :=
  c9_progSet_partial [] "1:10s,bad".data ["1:10s".data] "bad".data []
    [⟨1, 10000000000⟩] (.invalidEvent "bad".data) (by decide)
    (by decide) (by decide)

theorem int_land_two_pow_ne (a b : Nat) (h : a ≠ b) :
    Int.land ((2 : Int) ^ a) ((2 : Int) ^ b) = 0 := by
  have ha : ((2 : Int) ^ a) = ((2 ^ a : Nat) : Int) := by push_cast; rfl
  have hb : ((2 : Int) ^ b) = ((2 ^ b : Nat) : Int) := by push_cast; rfl
  rw [ha, hb]
  have hland : Int.land ((2 ^ a : Nat) : Int) ((2 ^ b : Nat) : Int)
      = ((((2 ^ a : Nat) &&& (2 ^ b : Nat)) : Nat) : Int) := rfl
  rw [hland]
  have hz : ((2 ^ a : Nat) &&& (2 ^ b : Nat)) = 0 := by
    apply Nat.eq_of_testBit_eq
    intro i
    rw [Nat.testBit_land, Nat.zero_testBit, Nat.testBit_two_pow,
      Nat.testBit_two_pow]
    rcases eq_or_ne a i with rfl | hai
    · have hbi : b ≠ a := fun hh => h hh.symm
      simp [hbi]
    · simp [hai]
  rw [hz]
  rfl

theorem relay2ic_two_pow_ge8 (n : Nat) (hn : 8 ≤ n) :
    relay2ic ((2 : Int) ^ n) = 0 := by
  have h0 := int_land_two_pow_ne n 0 (by omega)
  have h1 := int_land_two_pow_ne n 1 (by omega)
  have h2 := int_land_two_pow_ne n 2 (by omega)
  have h3 := int_land_two_pow_ne n 3 (by omega)
  have h4 := int_land_two_pow_ne n 4 (by omega)
  have h5 := int_land_two_pow_ne n 5 (by omega)
  have h6 := int_land_two_pow_ne n 6 (by omega)
  have h7 := int_land_two_pow_ne n 7 (by omega)
  norm_num at h0 h1 h2 h3 h4 h5 h6 h7
  have hr : List.range 8 = [0, 1, 2, 3, 4, 5, 6, 7] := by decide
  simp [relay2ic, hr, h0, h1, h2, h3, h4, h5, h6, h7]

theorem relay2ic_eventMask_ge9 (e : Event) (he : 9 ≤ e.id) :
    relay2ic (eventMask e) = 0 := by
  unfold eventMask
  rw [if_pos (by omega : e.id > 0)]
  exact relay2ic_two_pow_ge8 _ (by omega)

/-- C10 (implicit): `event.Set` imposes no upper bound of 8 on the zone
id — it accepts every non-negative integer id that parses; and for every
id ≥ 9 the run mask `1 << (id-1)` has no bits in positions 0–7, so
`relay2ic` maps it to wire byte 0 and the hardware write issued for that
event is the all-off byte `[1, 0]`. -/
theorem c10_no_zone_upper_bound :
    (∀ (s p0 p1 : List Char) (dur id : Int),
        goSplit ':' s = [p0, p1] →
        parseDuration p1 = .ok dur → offTime ≤ dur →
        atoi p0 = .ok id → 0 ≤ id →
        eventSet s = .ok ⟨id, dur⟩) ∧
    (∀ e : Event, 9 ≤ e.id → relay2ic (eventMask e) = 0) ∧
    (∀ (d : Device) (k : Nat) (e : Event), 9 ≤ e.id →
        (eventRun d k e).2.1.head? = some (HwOp.write [writeAddress, 0])) := by
  refine ⟨?_, relay2ic_eventMask_ge9, ?_⟩
  · intro s p0 p1 dur id hsplit hdur hge hid hpos
    have hnlt : ¬(dur < offTime) := not_lt.mpr hge
    have hnneg : ¬(id < 0) := not_lt.mpr hpos
    simp [eventSet, hsplit, hdur, hnlt, hid, hnneg]
  · intro d k e he
    have hz := relay2ic_eventMask_ge9 e he
    cases hset : (relaySet d k (eventMask e)).1 with
    | error err =>
      rw [eventRun_err d k e err hset]
      show some (HwOp.write [writeAddress, relay2ic (eventMask e)]) = _
      rw [hz]
    | ok u =>
      obtain ⟨⟩ := u
      rw [eventRun_ok d k e hset]
      show some (HwOp.write [writeAddress, relay2ic (eventMask e)]) = _
      rw [hz]

theorem c10_no_zone_upper_bound_witness :
    eventSet "200:10s".data = .ok ⟨200, 10000000000⟩ ∧
      relay2ic (eventMask ⟨9, 3000000000⟩) = 0 ∧
      (eventRun devAllOk 0 ⟨9, 3000000000⟩).2.1.head? =
        some (HwOp.write [writeAddress, 0]) :=
  ⟨c10_no_zone_upper_bound.1 "200:10s".data "200".data "10s".data
      10000000000 200 (by decide) (by decide) (by decide) (by decide) (by decide),
   c10_no_zone_upper_bound.2.1 ⟨9, 3000000000⟩ (by decide),
   c10_no_zone_upper_bound.2.2 devAllOk 0 ⟨9, 3000000000⟩ (by decide)⟩
